import Mathlib

/-!
# Color grid: the state logic of `src/src/App.jsx`

A shallow embedding of the grid painter component: the helpers `clamp` and
`makeGrid`, the resize effect, `paint`, `clearAll`, `fillAll`, `checker` and
the `onChange` handlers of the four inputs, followed by the properties of the
specification that concern them.

JavaScript values are embedded as follows.

* Numbers (`Num`): `NaN` or an integer. Every number of the component comes
  from a literal, from `Array.prototype.length` or from `parseInt`, so no
  fraction occurs. `parseInt` returns a double: the integer that it reads,
  rounded to the nearest double (`roundToDouble`), which is again an integer.
  `int (2^1024)` and `int (-2^1024)` stand for `Infinity` and `-Infinity`: no
  finite double is that large, and minimum, maximum, comparison and `ToLength`
  treat 2^1024 as they treat `Infinity`. The zero that `parseInt` returns for
  `-0` is not told apart from 0.
* Cells (`Cell`): `null`, `undefined` (what reading past the end of a row
  gives, and what a hole left by writing past the end reads as) or a string.
* Arrays are lists; an updater passed to `setGrid` is a function from the old
  grid to the new one. An operation that throws a `TypeError` in JavaScript
  (indexing `undefined`) returns `none`.
-/

namespace ColorGrid

/-! ## Values -/

/-- A JavaScript number of the component: `NaN` or an integer, where
`int (2^1024)` and `int (-2^1024)` stand for `Infinity` and `-Infinity`. -/
inductive Num where
  | nan : Num
  | int (n : Int) : Num
  deriving DecidableEq, Repr

/-- The value of a grid cell: `null`, `undefined` or a string. -/
inductive Cell where
  | null : Cell
  | undefined : Cell
  | str (s : String) : Cell
  deriving DecidableEq, Repr

/-- A row of the grid (a JavaScript array of cell values). -/
abbrev Row := List Cell

/-- The grid (a JavaScript array of rows). -/
abbrev Grid := List Row

/-! ## Library functions used by the component -/

/-- `Math.min(a, b)`: `NaN` when an argument is `NaN`. -/
def mathMin : Num → Num → Num
  | .int a, .int b => .int (min a b)
  | _, _ => .nan

/-- `Math.max(a, b)`: `NaN` when an argument is `NaN`. -/
def mathMax : Num → Num → Num
  | .int a, .int b => .int (max a b)
  | _, _ => .nan

/-- `ToLength` of the `length` property given to `Array.from`: `NaN` and
negative numbers give 0, and the result is capped at 2^53 - 1. (`Array.from`
throws a `RangeError` above 2^32 - 1; the component only passes `NaN` or
numbers up to 60.) -/
def toLength : Num → Nat
  | .nan => 0
  | .int n => min n.toNat (2 ^ 53 - 1)

/-- The number of iterations of `for (let i = 0; i < bound; i++)`: the
comparison `i < NaN` is false, so `NaN` gives none. (A bound of `Infinity`
would never end the loop; the bounds of the component are lengths and clamped
counts.) -/
def loopCount : Num → Nat
  | .nan => 0
  | .int n => n.toNat

/-- The double nearest to an integer, as an integer (the conversion of a
mathematical value to a Number): an integer of magnitude up to 2^53 is a
double; a larger one keeps its 53 leading bits, rounded to nearest with ties
to the even one; what rounds to 2^1024 or beyond is `Infinity`, written
2^1024. -/
def roundToDouble (n : Int) : Int :=
  let m := n.natAbs
  if m ≤ 2 ^ 53 then n
  else
    let e := Nat.log2 m - 52
    let q := m / 2 ^ e
    let r := m % 2 ^ e
    let q1 := if 2 ^ e < 2 * r ∨ (2 * r = 2 ^ e ∧ q % 2 = 1) then q + 1 else q
    let d := if 2 ^ 1024 ≤ q1 * 2 ^ e then 2 ^ 1024 else q1 * 2 ^ e
    n.sign * (d : Nat)

/-- The white space that `parseInt` skips at the start of its argument
(`WhiteSpace` and `LineTerminator` of ECMAScript), by code point. -/
def isWhiteSpace (c : Char) : Bool :=
  let n := c.toNat
  n = 0x9 || n = 0xA || n = 0xB || n = 0xC || n = 0xD || n = 0x20 || n = 0xA0
    || n = 0x1680 || (0x2000 ≤ n && n ≤ 0x200A) || n = 0x2028 || n = 0x2029
    || n = 0x202F || n = 0x205F || n = 0x3000 || n = 0xFEFF

/-- The value of a character as a digit: `0`-`9`, then `a`-`z` or `A`-`Z`
for 10-35. -/
def digitValue (c : Char) : Option Nat :=
  let n := c.toNat
  if 48 ≤ n ∧ n ≤ 57 then some (n - 48)
  else if 97 ≤ n ∧ n ≤ 122 then some (n - 97 + 10)
  else if 65 ≤ n ∧ n ≤ 90 then some (n - 65 + 10)
  else none

/-- The values of the longest run of radix-`R` digits at the start of the
characters. -/
def takeDigits (R : Nat) : List Char → List Nat
  | [] => []
  | c :: cs =>
    match digitValue c with
    | some d => if d < R then d :: takeDigits R cs else []
    | none => []

/-- The integer written by a list of radix-`R` digit values, most significant
first. -/
def digitsValue (R : Nat) (ds : List Nat) : Nat :=
  ds.foldl (fun acc d => acc * R + d) 0

/-- `parseInt(string)` without a radix, step by step as in ECMAScript: skip
leading white space; the sign is -1 when the first character is `-`; remove a
first `+` or `-`; when the first two characters are `0x` or `0X` remove them
and read in radix 16, otherwise in radix 10; take the longest run of digits;
`NaN` when that run is empty, else the signed value of the run as a Number,
that is, rounded to the nearest double. (ECMAScript lets an implementation
replace the digits after the 20th by zeros before rounding; the value here is
the correctly rounded one.) -/
def parseInt (string : String) : Num :=
  let S := string.toList.dropWhile isWhiteSpace
  let sign : Int := if S.head? = some '-' then -1 else 1
  let S := if S.head? = some '+' ∨ S.head? = some '-' then S.tail else S
  let hex : Bool := decide (S.take 2 = ['0', 'x'] ∨ S.take 2 = ['0', 'X'])
  let R : Nat := if hex then 16 else 10
  let S := if hex then S.drop 2 else S
  let Z := takeDigits R S
  if Z = [] then .nan else .int (roundToDouble (sign * (digitsValue R Z : Nat)))

/-- The expression `e.target.value || "0"`: the empty string is falsy. -/
def orZero (value : String) : String :=
  if value = "" then "0" else value

/-! ## `clamp` and `makeGrid` -/

/-- `function clamp(n, min, max) { return Math.max(min, Math.min(max, n)); }` -/
def clamp (n lo hi : Num) : Num :=
  mathMax lo (mathMin hi n)

/-- `function makeGrid(rows, cols, fill = null)`: `rows` arrays of `cols`
copies of `fill`. The default of `fill` is passed explicitly here. -/
def makeGrid (rows cols : Num) (fill : Cell) : Grid :=
  List.replicate (toLength rows) (List.replicate (toLength cols) fill)

/-! ## Reading and writing cells -/

/-- The expression `g[r][c]`: a `TypeError` (`none`) when `g[r]` is
`undefined`, and `undefined` when row `r` has no index `c`. -/
def getCell (g : Grid) (r c : Nat) : Option Cell :=
  match g[r]? with
  | none => none
  | some row => some (row.getD c Cell.undefined)

/-- The assignment `row[c] = v` on an array: writing past the end lengthens
the array, and the holes in between read as `undefined`. -/
def setRow (row : Row) (c : Nat) (v : Cell) : Row :=
  if c < row.length then row.set c v
  else row ++ List.replicate (c - row.length) Cell.undefined ++ [v]

/-- The assignment `g[r][c] = v`: a `TypeError` (`none`) when `g[r]` is
`undefined`. -/
def setCell (g : Grid) (r c : Nat) (v : Cell) : Option Grid :=
  match g[r]? with
  | none => none
  | some row => some (g.set r (setRow row c v))

/-- The expression `g[0]?.length ?? 0`. -/
def firstRowLength (g : Grid) : Nat :=
  match g with
  | [] => 0
  | row :: _ => row.length

/-! ## The range controls -/

/-- The decimal numeral of an integer, as a control of the page holds it: a
minus sign for a negative integer, then the decimal digits. -/
def decimalText (n : Int) : String :=
  match n with
  | Int.ofNat m => String.mk (Nat.toDigits 10 m)
  | Int.negSucc m => String.mk ('-' :: Nat.toDigits 10 (m + 1))

/-- The values that `<input type="range" min={lo} max={hi} step={step}>` can
hold: `lo`, `lo + step`, ... up to `hi`. The control keeps its value in this
set whatever is done to it (a value below `lo` becomes `lo`, one above `hi`
becomes `hi`, one off the steps moves to a step), so only these reach
`onChange`. For `lo ≤ hi` and `1 ≤ step`, as in the component. -/
def rangeValues (lo hi step : Int) : List Int :=
  (List.range (((hi - lo) / step).toNat + 1)).map (fun (k : Nat) => lo + (k : Int) * step)

/-- The texts that the range control hands to `onChange` as `e.target.value`:
the numerals of the values that it can hold. -/
def rangeTexts (lo hi step : Int) : List String :=
  (rangeValues lo hi step).map decimalText

/-! ## The component -/

/-- The palette `colors` of the component. -/
def colors : List String :=
  ["#3b82f6", "#ef4444", "#f59e0b", "#10b981", "#8b5cf6",
   "#ec4899", "#14b8a6", "#f43f5e", "#eab308", "#64748b"]

/-- The state of `App`: the six `useState` cells. -/
structure State where
  rows : Num
  cols : Num
  size : Num
  gap : Num
  color : String
  grid : Grid
  deriving DecidableEq, Repr

/-- The initial values given to `useState`. -/
def initialState : State :=
  { rows := .int 8, cols := .int 8, size := .int 42, gap := .int 6,
    color := "#3b82f6", grid := makeGrid (.int 8) (.int 8) Cell.null }

/-- The inner loop of the resize effect, for one row `r`:
`for (let c = 0; c < colBound; c++) next[r][c] = g[r][c];` -/
def resizeRow (g : Grid) (colBound r : Nat) (next : Grid) : Option Grid :=
  (List.range colBound).foldlM
    (fun next c => (getCell g r c).bind (fun v => setCell next r c v)) next

/-- The updater that the resize effect passes to `setGrid`: a fresh grid of
`clamp(rows, 1, 60)` by `clamp(cols, 1, 60)` unset cells, into which the
cells of `g` are copied for `r < Math.min(R, g.length)` and
`c < Math.min(C, g[0]?.length ?? 0)`. -/
def resize (rows cols : Num) (g : Grid) : Option Grid :=
  let R := clamp rows (.int 1) (.int 60)
  let C := clamp cols (.int 1) (.int 60)
  let next := makeGrid R C Cell.null
  let rowBound := loopCount (mathMin R (.int g.length))
  let colBound := loopCount (mathMin C (.int (firstRowLength g)))
  (List.range rowBound).foldlM (fun next r => resizeRow g colBound r next) next

/-- The updater that `paint(r, c)` passes to `setGrid`: copy every row
(`g.map((row) => row.slice())`), then
`next[r][c] = next[r][c] === color ? null : color`. -/
def paint (color : String) (r c : Nat) (g : Grid) : Option Grid :=
  let next := g.map (fun row => row.drop 0)
  (getCell next r c).bind
    (fun cur => setCell next r c (if cur = Cell.str color then Cell.null else Cell.str color))

/-- The grid set by `clearAll()`: `makeGrid(rows, cols, null)`. -/
def clearAll (rows cols : Num) : Grid :=
  makeGrid rows cols Cell.null

/-- The grid set by `fillAll()`: `makeGrid(rows, cols, color)`. -/
def fillAll (rows cols : Num) (color : String) : Grid :=
  makeGrid rows cols (Cell.str color)

/-- The inner loop of `checker`, for one row `r`:
`for (let c = 0; c < cols; c++) if ((r + c) % 2 === 0) out[r][c] = color;` -/
def checkerRow (cols : Num) (color : String) (r : Nat) (out : Grid) : Option Grid :=
  (List.range (loopCount cols)).foldlM
    (fun out c => if (r + c) % 2 = 0 then setCell out r c (Cell.str color) else some out) out

/-- The updater that `checker()` passes to `setGrid`; it ignores the old
grid. -/
def checker (rows cols : Num) (color : String) : Option Grid :=
  let out := makeGrid rows cols Cell.null
  (List.range (loopCount rows)).foldlM (fun out r => checkerRow cols color r out) out

/-- The value that the `onChange` handler of the rows input gives to
`setRows`: `clamp(parseInt(e.target.value || "0"), 1, 60)`. -/
def rowsOnChange (value : String) : Num :=
  clamp (parseInt (orZero value)) (.int 1) (.int 60)

/-- The value that the `onChange` handler of the columns input gives to
`setCols`: `clamp(parseInt(e.target.value || "0"), 1, 60)`. -/
def colsOnChange (value : String) : Num :=
  clamp (parseInt (orZero value)) (.int 1) (.int 60)

/-- The value that the `onChange` handler of the cell size range input gives
to `setSize`: `parseInt(e.target.value)`. -/
def sizeOnChange (value : String) : Num :=
  parseInt value

/-- The value that the `onChange` handler of the gap range input gives to
`setGap`: `parseInt(e.target.value)`. -/
def gapOnChange (value : String) : Num :=
  parseInt value

/-- The effect `React.useEffect(..., [rows, cols])` after a state change from
`old` to `s`: it runs the resize updater when a dependency has changed, and
not otherwise. -/
def runEffect (old s : State) : Option State :=
  if s.rows = old.rows ∧ s.cols = old.cols then some s
  else (resize s.rows s.cols s.grid).map (fun g => { s with grid := g })

/-- The state after the component has mounted: the effect runs once on the
initial state. -/
def mounted : Option State :=
  (resize initialState.rows initialState.cols initialState.grid).map
    (fun g => { initialState with grid := g })

/-- The user events that the rendered component reacts to. -/
inductive Event where
  | rowsInput (value : String) : Event
  | colsInput (value : String) : Event
  | sizeInput (value : String) : Event
  | gapInput (value : String) : Event
  | pickColor (c : String) : Event
  | paintCell (r c : Nat) : Event
  | clear : Event
  | fill : Event
  | checkerboard : Event
  deriving DecidableEq, Repr

/-- Whether the rendered component offers the event: there is one swatch per
palette color and one button per cell of the grid; the cell size control
(`min={20} max={72} step={2}`) and the gap control (`min={0} max={24}
step={1}`) hand over the texts of their values only; the two number inputs
and the three action buttons are always there. -/
def Event.enabled (s : State) : Event → Bool
  | .sizeInput value => decide (value ∈ rangeTexts 20 72 2)
  | .gapInput value => decide (value ∈ rangeTexts 0 24 1)
  | .pickColor c => decide (c ∈ colors)
  | .paintCell r c =>
    match s.grid[r]? with
    | none => false
    | some row => decide (c < row.length)
  | _ => true

/-- One event: the handler runs, then the effect. An event that the rendered
component does not offer gives `none`, as does a handler that throws. -/
def step (s : State) (e : Event) : Option State :=
  if Event.enabled s e then
    match e with
    | .rowsInput value => runEffect s { s with rows := rowsOnChange value }
    | .colsInput value => runEffect s { s with cols := colsOnChange value }
    | .sizeInput value => some { s with size := sizeOnChange value }
    | .gapInput value => some { s with gap := gapOnChange value }
    | .pickColor c => some { s with color := c }
    | .paintCell r c => (paint s.color r c s.grid).map (fun g => { s with grid := g })
    | .clear => some { s with grid := clearAll s.rows s.cols }
    | .fill => some { s with grid := fillAll s.rows s.cols s.color }
    | .checkerboard => (checker s.rows s.cols s.color).map (fun g => { s with grid := g })
  else none

/-- A sequence of events from a state. -/
def run (s : State) (es : List Event) : Option State :=
  es.foldlM step s

/-! ## Vocabulary of the specification -/

/-- The cell at row `r`, column `c` of a grid, when there is one. -/
def cellAt (g : Grid) (r c : Nat) : Option Cell :=
  match g[r]? with
  | none => none
  | some row => row[c]?

/-- A grid has exactly `R` rows of exactly `C` cells each. -/
def HasShape (g : Grid) (R C : Nat) : Prop :=
  g.length = R ∧ ∀ row ∈ g, row.length = C

/-- The grid of `R` rows and `C` columns whose cell `(r, c)` is `f r c`. -/
def tabulate (R C : Nat) (f : Nat → Nat → Cell) : Grid :=
  (List.range R).map (fun r => (List.range C).map (fun c => f r c))

/-- The text of a rows or columns event is integer-parseable, the empty text
being read as 0: `parseInt(value || "0")` is not `NaN`. Events of the other
kinds carry no such text. -/
def Event.integerInput : Event → Bool
  | .rowsInput value => decide (parseInt (orZero value) ≠ Num.nan)
  | .colsInput value => decide (parseInt (orZero value) ≠ Num.nan)
  | _ => true

/-- The shape invariant of the specification: the stored row and column
counts are integers in [1,60], and the grid has exactly `clamp(rows, 1, 60)`
rows of exactly `clamp(cols, 1, 60)` cells. -/
def ShapeInvariant (s : State) : Prop :=
  (∃ R : Int, s.rows = .int R ∧ 1 ≤ R ∧ R ≤ 60) ∧
  (∃ C : Int, s.cols = .int C ∧ 1 ≤ C ∧ C ≤ 60) ∧
  HasShape s.grid (toLength (clamp s.rows (.int 1) (.int 60)))
    (toLength (clamp s.cols (.int 1) (.int 60)))

/-! ## Paint with the row arrays in memory

`paint` above is a function of the value of the grid. To state that the
updater leaves the arrays of the old grid as they were, the same two
statements are also read with the row arrays held in a heap. -/

/-- The row arrays in memory; an address is a position in the list. -/
abbrev Heap := List Row

/-- A grid as the component holds it: the addresses of its row arrays. -/
abbrev GridRef := List Nat

/-- The grid that the addresses denote in a heap. -/
def deref (h : Heap) (g : GridRef) : Grid :=
  g.map (fun p => h.getD p [])

/-- The updater of `paint` on the heap: `g.map((row) => row.slice())`
allocates a copy of every row at a fresh address, and
`next[r][c] = next[r][c] === color ? null : color` writes into the copy of
row `r`. The result is the new heap and the addresses of `next`. -/
def paintHeap (color : String) (r c : Nat) (h : Heap) (g : GridRef) : Option (Heap × GridRef) :=
  let next : GridRef := List.range' h.length g.length
  let h1 : Heap := h ++ g.map (fun p => (h.getD p []).drop 0)
  match next[r]? with
  | none => none
  | some p =>
    let cur := (h1.getD p []).getD c Cell.undefined
    some (h1.set p (setRow (h1.getD p []) c
      (if cur = Cell.str color then Cell.null else Cell.str color)), next)

/-- Loop rule for `for (let i = 0; i < n; i++)` with a body that may throw:
an invariant that holds at the start and that every iteration carries from
`i` to `i + 1` without throwing holds at `n`, and the loop does not throw. -/
theorem foldlM_range_inv {α : Type} (body : α → Nat → Option α) (P : Nat → α → Prop)
    (n : Nat) (a0 : α) (h0 : P 0 a0)
    (hstep : ∀ i a, i < n → P i a → ∃ a', body a i = some a' ∧ P (i + 1) a') :
    ∃ a, (List.range n).foldlM body a0 = some a ∧ P n a := by
  induction n with
  | zero => exact ⟨a0, by simp, h0⟩
  | succ k ih =>
    obtain ⟨a, ha, hP⟩ := ih (fun i a hi hPi => hstep i a (Nat.lt_succ_of_lt hi) hPi)
    obtain ⟨a', ha', hP'⟩ := hstep k a (Nat.lt_succ_self k) hP
    refine ⟨a', ?_, hP'⟩
    rw [List.range_succ, List.foldlM_append, ha]
    simp [ha']

theorem tabulate_getElem? (R C : Nat) (f : Nat → Nat → Cell) (r : Nat) :
    (tabulate R C f)[r]? = if r < R then some ((List.range C).map (fun c => f r c)) else none := by
  unfold tabulate
  by_cases h : r < R
  · simp [h, List.getElem?_range]
  · simp [h]
    omega

theorem tabulate_length (R C : Nat) (f : Nat → Nat → Cell) : (tabulate R C f).length = R := by
  simp [tabulate]

theorem tabulate_congr (R C : Nat) (f f' : Nat → Nat → Cell)
    (h : ∀ r c, r < R → c < C → f r c = f' r c) : tabulate R C f = tabulate R C f' := by
  unfold tabulate
  apply List.map_congr_left
  intro r hr
  apply List.map_congr_left
  intro c hc
  exact h r c (List.mem_range.mp hr) (List.mem_range.mp hc)

theorem setRow_map_range (C : Nat) (h : Nat → Cell) (c : Nat) (v : Cell) (hc : c < C) :
    setRow ((List.range C).map h) c v = (List.range C).map (fun c' => if c' = c then v else h c') := by
  unfold setRow
  simp only [List.length_map, List.length_range, hc, if_true]
  apply List.ext_getElem?
  intro i
  by_cases hi : i < C
  · by_cases hic : i = c
    · subst hic; simp [List.getElem?_set, hi, List.getElem?_range]
    · have : ¬ c = i := fun h => hic h.symm
      simp [List.getElem?_set, hi, hic, this, List.getElem?_range]
  · have hci : ¬ c = i := by omega
    have hn : (List.range C)[i]? = none := by
      apply List.getElem?_eq_none
      simp; omega
    simp [List.getElem?_set, hci, hn]

theorem setCell_tabulate (R C : Nat) (f : Nat → Nat → Cell) (r c : Nat) (v : Cell)
    (hr : r < R) (hc : c < C) :
    setCell (tabulate R C f) r c v
      = some (tabulate R C (fun r' c' => if r' = r ∧ c' = c then v else f r' c')) := by
  unfold setCell
  rw [tabulate_getElem?]
  simp only [hr, if_true]
  rw [setRow_map_range C _ c v hc]
  congr 1
  apply List.ext_getElem?
  intro i
  rw [tabulate_getElem?]
  by_cases hi : i < R
  · by_cases hir : i = r
    · subst hir
      simp [List.getElem?_set, hi, tabulate_length]
    · have : ¬ r = i := fun h => hir h.symm
      simp [List.getElem?_set, hi, hir, this, tabulate_getElem?]
  · have : ¬ r = i := by omega
    simp [List.getElem?_set, hi, this, tabulate_getElem?]

theorem makeGrid_eq_tabulate (rows cols : Num) (fill : Cell) :
    makeGrid rows cols fill = tabulate (toLength rows) (toLength cols) (fun _ _ => fill) := by
  unfold makeGrid tabulate
  have h : ∀ {β : Type} (n : Nat) (b : β), List.replicate n b = (List.range n).map (fun _ => b) := by
    intro β n b
    apply List.ext_getElem?
    intro i
    by_cases hi : i < n
    · simp [List.getElem?_replicate, hi, List.getElem?_range]
    · have hn : (List.range n)[i]? = none := by
        apply List.getElem?_eq_none
        simp; omega
      simp [List.getElem?_replicate, hi, hn]
  rw [h, h]

/-- The value that `g[r][c]` reads when row `r` exists. -/
theorem getCell_eq (g : Grid) (r c : Nat) (hr : r < g.length) :
    getCell g r c = some ((g.getD r []).getD c Cell.undefined) := by
  unfold getCell
  simp [List.getElem?_eq_getElem hr, List.getD_eq_getElem?_getD]

theorem resizeRow_tabulate (g : Grid) (R C : Nat) (f : Nat → Nat → Cell) (cb r : Nat)
    (hg : r < g.length) (hr : r < R) (hcb : cb ≤ C) :
    resizeRow g cb r (tabulate R C f)
      = some (tabulate R C (fun r' c' =>
          if r' = r ∧ c' < cb then (g.getD r []).getD c' Cell.undefined else f r' c')) := by
  unfold resizeRow
  obtain ⟨a, ha, hP⟩ := foldlM_range_inv
    (fun next c => (getCell g r c).bind (fun v => setCell next r c v))
    (fun k next => next = tabulate R C (fun r' c' =>
          if r' = r ∧ c' < k then (g.getD r []).getD c' Cell.undefined else f r' c'))
    cb (tabulate R C f) (by simp)
    (by
      intro i a hi hPa
      subst hPa
      refine ⟨_, ?_, rfl⟩
      show (getCell g r i).bind (fun v => setCell _ r i v) = _
      rw [getCell_eq g r i hg]
      simp only [Option.some_bind]
      rw [setCell_tabulate R C _ r i _ hr (by omega)]
      congr 1
      apply tabulate_congr
      intro r' c' _ _
      by_cases h1 : r' = r
      · by_cases h2 : c' = i
        · subst h1; subst h2; simp
        · have h3 : c' < i + 1 ↔ c' < i := by omega
          simp [h1, h2, h3]
      · simp [h1])
  rw [ha, hP]

theorem resizeLoop_tabulate (g : Grid) (R C rb cb : Nat)
    (hrg : rb ≤ g.length) (hrR : rb ≤ R) (hcb : cb ≤ C) :
    (List.range rb).foldlM (fun next r => resizeRow g cb r next)
        (tabulate R C (fun _ _ => Cell.null))
      = some (tabulate R C (fun r c =>
          if r < rb ∧ c < cb then (g.getD r []).getD c Cell.undefined else Cell.null)) := by
  obtain ⟨a, ha, hP⟩ := foldlM_range_inv
    (fun next r => resizeRow g cb r next)
    (fun k next => next = tabulate R C (fun r c =>
          if r < k ∧ c < cb then (g.getD r []).getD c Cell.undefined else Cell.null))
    rb (tabulate R C (fun _ _ => Cell.null)) (by simp)
    (by
      intro i a hi hPa
      subst hPa
      refine ⟨_, ?_, rfl⟩
      show resizeRow g cb i _ = _
      rw [resizeRow_tabulate g R C _ cb i (by omega) (by omega) hcb]
      congr 1
      apply tabulate_congr
      intro r' c' _ _
      by_cases h1 : r' = i
      · subst h1; simp
      · have h4 : r' < i + 1 ↔ r' < i := by omega
        simp [h1, h4])
  rw [ha, hP]

theorem clamp_cases (n : Num) :
    clamp n (.int 1) (.int 60) = .nan ∨
      ∃ k : Int, 1 ≤ k ∧ k ≤ 60 ∧ clamp n (.int 1) (.int 60) = .int k := by
  cases n with
  | nan => left; rfl
  | int m =>
    right
    refine ⟨max 1 (min 60 m), ?_, ?_, rfl⟩ <;> omega

/-- The resize updater never throws, and its result is the grid of
`clamp(rows, 1, 60)` by `clamp(cols, 1, 60)` cells that holds `g[r][c]` inside
the two loop bounds and `null` outside. -/
theorem resize_eq (rows cols : Num) (g : Grid) :
    resize rows cols g
      = some (tabulate (toLength (clamp rows (.int 1) (.int 60)))
          (toLength (clamp cols (.int 1) (.int 60)))
          (fun r c =>
            if r < loopCount (mathMin (clamp rows (.int 1) (.int 60)) (.int g.length))
                ∧ c < loopCount (mathMin (clamp cols (.int 1) (.int 60)) (.int (firstRowLength g)))
            then (g.getD r []).getD c Cell.undefined else Cell.null)) := by
  unfold resize
  simp only []
  rw [makeGrid_eq_tabulate]
  apply resizeLoop_tabulate
  · rcases clamp_cases rows with h | ⟨k, h1, h2, h⟩ <;> rw [h] <;> simp [mathMin, loopCount]
  · rcases clamp_cases rows with h | ⟨k, h1, h2, h⟩ <;> rw [h] <;> simp [mathMin, loopCount, toLength]
    omega
  · rcases clamp_cases cols with h | ⟨k, h1, h2, h⟩ <;> rw [h] <;> simp [mathMin, loopCount, toLength]
    omega

theorem checkerRow_tabulate (R C : Nat) (f : Nat → Nat → Cell) (cols : Num) (color : String)
    (r : Nat) (hr : r < R) (hC : loopCount cols ≤ C) :
    checkerRow cols color r (tabulate R C f)
      = some (tabulate R C (fun r' c' =>
          if r' = r ∧ c' < loopCount cols ∧ (r' + c') % 2 = 0 then Cell.str color else f r' c')) := by
  unfold checkerRow
  obtain ⟨a, ha, hP⟩ := foldlM_range_inv
    (fun out c => if (r + c) % 2 = 0 then setCell out r c (Cell.str color) else some out)
    (fun k out => out = tabulate R C (fun r' c' =>
          if r' = r ∧ c' < k ∧ (r' + c') % 2 = 0 then Cell.str color else f r' c'))
    (loopCount cols) (tabulate R C f) (by simp)
    (by
      intro i a hi hPa
      subst hPa
      refine ⟨_, ?_, rfl⟩
      show (if (r + i) % 2 = 0 then setCell _ r i (Cell.str color) else some _) = _
      by_cases hpar : (r + i) % 2 = 0
      · rw [if_pos hpar, setCell_tabulate R C _ r i _ hr (by omega)]
        congr 1
        apply tabulate_congr
        intro r' c' _ _
        by_cases h1 : r' = r
        · by_cases h2 : c' = i
          · subst h1; subst h2; simp [hpar]
          · have h3 : c' < i + 1 ↔ c' < i := by omega
            simp [h1, h2, h3]
        · simp [h1]
      · rw [if_neg hpar]
        congr 1
        apply tabulate_congr
        intro r' c' _ _
        by_cases h1 : r' = r
        · by_cases h2 : c' = i
          · subst h1; subst h2; simp [hpar]
          · have h3 : c' < i + 1 ↔ c' < i := by omega
            simp [h1, h3]
        · simp [h1])
  rw [ha, hP]

/-- When the loop bounds do not exceed the allocated lengths (as for every
count from 0 to 2^53 - 1), `checker` does not throw and yields the
checkerboard of the active color. -/
theorem checker_eq (rows cols : Num) (color : String)
    (hR : loopCount rows ≤ toLength rows) (hC : loopCount cols ≤ toLength cols) :
    checker rows cols color
      = some (tabulate (toLength rows) (toLength cols)
          (fun r c => if r < loopCount rows ∧ c < loopCount cols ∧ (r + c) % 2 = 0
            then Cell.str color else Cell.null)) := by
  unfold checker
  simp only []
  rw [makeGrid_eq_tabulate]
  obtain ⟨a, ha, hP⟩ := foldlM_range_inv
    (fun out r => checkerRow cols color r out)
    (fun k out => out = tabulate (toLength rows) (toLength cols) (fun r c =>
          if r < k ∧ c < loopCount cols ∧ (r + c) % 2 = 0 then Cell.str color else Cell.null))
    (loopCount rows) (tabulate (toLength rows) (toLength cols) (fun _ _ => Cell.null)) (by simp)
    (by
      intro i a hi hPa
      subst hPa
      refine ⟨_, ?_, rfl⟩
      show checkerRow cols color i _ = _
      rw [checkerRow_tabulate _ _ _ cols color i (by omega) hC]
      congr 1
      apply tabulate_congr
      intro r' c' _ _
      by_cases h1 : r' = i
      · subst h1; simp
      · have h4 : r' < i + 1 ↔ r' < i := by omega
        simp [h1, h4])
  rw [ha, hP]

theorem cellAt_tabulate (R C : Nat) (f : Nat → Nat → Cell) (r c : Nat) :
    cellAt (tabulate R C f) r c = if r < R ∧ c < C then some (f r c) else none := by
  unfold cellAt
  rw [tabulate_getElem?]
  by_cases hr : r < R
  · by_cases hc : c < C
    · simp [hr, hc, List.getElem?_range]
    · have hn : (List.range C)[c]? = none := by
        apply List.getElem?_eq_none
        simp; omega
      simp [hr, hc, hn]
  · simp [hr]

theorem hasShape_tabulate (R C : Nat) (f : Nat → Nat → Cell) : HasShape (tabulate R C f) R C := by
  refine ⟨tabulate_length R C f, ?_⟩
  intro row hrow
  unfold tabulate at hrow
  rw [List.mem_map] at hrow
  obtain ⟨r, _, rfl⟩ := hrow
  simp

/-- A grid of `R` rows of `C` cells is the tabulation of its own cells. -/
theorem eq_tabulate_of_hasShape (g : Grid) (R C : Nat) (h : HasShape g R C) :
    g = tabulate R C (fun r c => (g.getD r []).getD c Cell.undefined) := by
  obtain ⟨hlen, hrows⟩ := h
  apply List.ext_getElem?
  intro r
  rw [tabulate_getElem?]
  by_cases hr : r < R
  · have hr' : r < g.length := by omega
    rw [if_pos hr, List.getElem?_eq_getElem hr']
    congr 1
    have hC : (g[r]).length = C := hrows _ (List.getElem_mem hr')
    apply List.ext_getElem?
    intro c
    by_cases hc : c < C
    · have hc' : c < (g[r]).length := by omega
      simp [List.getElem?_range, hc, List.getD_eq_getElem?_getD, List.getElem?_eq_getElem hr',
        List.getElem?_eq_getElem hc']
    · have hn : (List.range C)[c]? = none := by
        apply List.getElem?_eq_none
        simp; omega
      have hn' : (g[r])[c]? = none := by
        apply List.getElem?_eq_none
        omega
      simp [hn, hn']
  · rw [if_neg hr]
    apply List.getElem?_eq_none
    omega

/-- The cell read by `cellAt` is the one that `g[r][c]` reads. -/
theorem cellAt_eq_some (g : Grid) (r c : Nat) (v : Cell) (h : cellAt g r c = some v) :
    (g.getD r []).getD c Cell.undefined = v := by
  unfold cellAt at h
  cases hr : g[r]? with
  | none => rw [hr] at h; simp at h
  | some row =>
    rw [hr] at h
    simp only [] at h
    simp [List.getD_eq_getElem?_getD, hr, h]

theorem cellAt_rows (g : Grid) (r c : Nat) (v : Cell) (h : cellAt g r c = some v) :
    ∃ row, g[r]? = some row ∧ row[c]? = some v ∧ c < row.length ∧ r < g.length := by
  unfold cellAt at h
  cases hr : g[r]? with
  | none => rw [hr] at h; simp at h
  | some row =>
    rw [hr] at h
    simp only [] at h
    have hc : c < row.length := by
      by_contra hlt
      rw [List.getElem?_eq_none (by omega)] at h
      simp at h
    have hrl : r < g.length := by
      by_contra hlt
      rw [List.getElem?_eq_none (by omega)] at hr
      simp at hr
    exact ⟨row, rfl, h, hc, hrl⟩

theorem cellAt_set (g : Grid) (r : Nat) (row' : Row) (hr : r < g.length) (r' c' : Nat) :
    cellAt (g.set r row') r' c' = if r' = r then row'[c']? else cellAt g r' c' := by
  unfold cellAt
  by_cases h : r' = r
  · subst h
    simp [List.getElem?_set, hr]
  · have h' : ¬ r = r' := fun e => h e.symm
    simp [List.getElem?_set, h, h']

/-- The updater of `paint` on a cell that exists: row `r` is replaced by a
copy in which index `c` holds the toggled value, and nothing throws. -/
theorem paint_eq (a : String) (g : Grid) (r c : Nat) (row : Row) (v : Cell)
    (hrow : g[r]? = some row) (hv : row[c]? = some v) :
    paint a r c g
      = some (g.set r (row.set c (if v = Cell.str a then Cell.null else Cell.str a))) := by
  have hc : c < row.length := by
    by_contra hlt
    rw [List.getElem?_eq_none (by omega)] at hv
    simp at hv
  unfold paint
  simp only [List.drop_zero, List.map_id']
  unfold getCell setCell
  rw [hrow]
  simp only [Option.some_bind]
  have hd : row.getD c Cell.undefined = v := by
    simp [List.getD_eq_getElem?_getD, hv]
  rw [hd]
  unfold setRow
  rw [if_pos hc]

theorem firstRowLength_of_hasShape (g : Grid) (R C : Nat) (h : HasShape g R C) (hR : 1 ≤ R) :
    firstRowLength g = C := by
  obtain ⟨hlen, hrows⟩ := h
  cases g with
  | nil => simp at hlen; omega
  | cons row rest => exact hrows row (List.mem_cons_self _ _)

theorem cellAt_of_hasShape (g : Grid) (R C : Nat) (h : HasShape g R C) (r c : Nat)
    (hr : r < R) (hc : c < C) :
    cellAt g r c = some ((g.getD r []).getD c Cell.undefined) := by
  have e := eq_tabulate_of_hasShape g R C h
  have e2 := cellAt_tabulate R C (fun r c => (g.getD r []).getD c Cell.undefined) r c
  rw [← e] at e2
  rw [e2, if_pos ⟨hr, hc⟩]

/-- Resizing a grid to the dimensions that it already has gives the grid
back. -/
theorem resize_of_hasShape (rows cols : Num) (g : Grid)
    (h : HasShape g (toLength (clamp rows (.int 1) (.int 60)))
      (toLength (clamp cols (.int 1) (.int 60)))) :
    resize rows cols g = some g := by
  rw [resize_eq]
  congr 1
  conv_rhs => rw [eq_tabulate_of_hasShape g _ _ h]
  apply tabulate_congr
  intro r c hr hc
  have hlen : g.length = toLength (clamp rows (.int 1) (.int 60)) := h.1
  have hfirst := firstRowLength_of_hasShape g _ _ h (by omega)
  rw [hlen, hfirst]
  have h1 : r < loopCount (mathMin (clamp rows (.int 1) (.int 60))
      (.int (toLength (clamp rows (.int 1) (.int 60))))) := by
    rcases clamp_cases rows with e | ⟨k, h1, h2, e⟩
    · rw [e] at hr; simp [toLength] at hr
    · rw [e] at hr ⊢
      simp [toLength, mathMin, loopCount] at hr ⊢
      omega
  have h2 : c < loopCount (mathMin (clamp cols (.int 1) (.int 60))
      (.int (toLength (clamp cols (.int 1) (.int 60))))) := by
    rcases clamp_cases cols with e | ⟨k, h1, h2, e⟩
    · rw [e] at hc; simp [toLength] at hc
    · rw [e] at hc ⊢
      simp [toLength, mathMin, loopCount] at hc ⊢
      omega
  rw [if_pos ⟨h1, h2⟩]

theorem clamp_int (n : Int) (h1 : 1 ≤ n) (h2 : n ≤ 60) :
    clamp (.int n) (.int 1) (.int 60) = .int n := by
  simp only [clamp, mathMin, mathMax]
  congr 1
  omega

/-- Two grids with the same number of rows and the same cell, or absence of
a cell, at every position are equal. -/
theorem grid_ext (g g' : Grid) (hlen : g.length = g'.length)
    (h : ∀ r c, cellAt g r c = cellAt g' r c) : g = g' := by
  apply List.ext_getElem?
  intro r
  by_cases hr : r < g.length
  · have hr' : r < g'.length := by omega
    rw [List.getElem?_eq_getElem hr, List.getElem?_eq_getElem hr']
    congr 1
    apply List.ext_getElem?
    intro c
    have e := h r c
    unfold cellAt at e
    rw [List.getElem?_eq_getElem hr, List.getElem?_eq_getElem hr'] at e
    exact e
  · rw [List.getElem?_eq_none (by omega), List.getElem?_eq_none (by omega)]

/-- The grid after the updater of `paint` on an existing cell, in terms of
row lengths and cells. -/
theorem paint_cells (a : String) (g : Grid) (r c : Nat) (v : Cell)
    (h : cellAt g r c = some v) :
    ∃ g', paint a r c g = some g' ∧ g'.map List.length = g.map List.length ∧
      ∀ r' c', cellAt g' r' c'
        = if r' = r ∧ c' = c then some (if v = Cell.str a then Cell.null else Cell.str a)
          else cellAt g r' c' := by
  obtain ⟨row, hrow, hv, hc, hr⟩ := cellAt_rows g r c v h
  refine ⟨_, paint_eq a g r c row v hrow hv, ?_, ?_⟩
  · apply List.ext_getElem?
    intro i
    by_cases hi : i = r
    · subst hi
      have hrow' : g[i] = row := by
        rw [List.getElem?_eq_getElem hr] at hrow
        exact Option.some.inj hrow
      simp [List.getElem?_set, hr, hrow']
    · have hi' : ¬ r = i := fun e => hi e.symm
      simp [List.getElem?_set, hi']
  · intro r' c'
    rw [cellAt_set g r _ hr]
    by_cases h1 : r' = r
    · subst h1
      by_cases h2 : c' = c
      · subst h2
        simp [List.getElem?_set, hc]
      · have h2' : ¬ c = c' := fun e => h2 e.symm
        simp [List.getElem?_set, h2, h2', cellAt, hrow]
    · simp [h1]

/-! ## `parseInt` on decimal numerals -/

theorem digitChar_dec (k : Nat) (h : k < 10) :
    48 ≤ (Nat.digitChar k).toNat ∧ (Nat.digitChar k).toNat ≤ 57
      ∧ (Nat.digitChar k).toNat - 48 = k := by
  interval_cases k <;> decide

theorem toDigitsCore_dec (fuel : Nat) : ∀ (n : Nat) (ds : List Char),
    (∀ c ∈ ds, 48 ≤ c.toNat ∧ c.toNat ≤ 57) →
    ∀ c ∈ Nat.toDigitsCore 10 fuel n ds, 48 ≤ c.toNat ∧ c.toNat ≤ 57 := by
  induction fuel with
  | zero => intro n ds h; simpa [Nat.toDigitsCore] using h
  | succ k ih =>
    intro n ds h
    have hd := digitChar_dec (n % 10) (Nat.mod_lt _ (by decide))
    have hcons : ∀ c ∈ Nat.digitChar (n % 10) :: ds, 48 ≤ c.toNat ∧ c.toNat ≤ 57 := by
      intro c hc
      rcases List.mem_cons.mp hc with e | e
      · rw [e]; exact ⟨hd.1, hd.2.1⟩
      · exact h c e
    unfold Nat.toDigitsCore
    simp only []
    split
    · exact hcons
    · exact ih _ _ hcons

theorem toDigitsCore_ne_nil (fuel n : Nat) (ds : List Char) :
    Nat.toDigitsCore 10 (fuel + 1) n ds ≠ [] := by
  induction fuel generalizing n ds with
  | zero =>
    unfold Nat.toDigitsCore
    simp only []
    split
    · simp
    · simp [Nat.toDigitsCore]
  | succ k ih =>
    unfold Nat.toDigitsCore
    simp only []
    split
    · simp
    · exact ih _ _

theorem toDigitsCore_value (fuel : Nat) : ∀ (n : Nat) (ds : List Char), n < fuel →
    ((Nat.toDigitsCore 10 fuel n ds).map (fun c => c.toNat - 48)).foldl
        (fun acc d => acc * 10 + d) 0
      = (ds.map (fun c => c.toNat - 48)).foldl (fun acc d => acc * 10 + d) n := by
  induction fuel with
  | zero => intro n ds h; omega
  | succ k ih =>
    intro n ds h
    have hd := (digitChar_dec (n % 10) (Nat.mod_lt _ (by decide))).2.2
    unfold Nat.toDigitsCore
    simp only []
    split
    · rename_i h0
      simp only [List.map_cons, List.foldl_cons, hd]
      congr 1
      omega
    · rename_i h0
      rw [ih (n / 10) _ (by omega)]
      simp only [List.map_cons, List.foldl_cons, hd]
      congr 1
      omega

theorem takeDigits_dec (l : List Char) (h : ∀ c ∈ l, 48 ≤ c.toNat ∧ c.toNat ≤ 57) :
    takeDigits 10 l = l.map (fun c => c.toNat - 48) := by
  induction l with
  | nil => rfl
  | cons c t ih =>
    have hc := h c (List.mem_cons_self _ _)
    have ht : ∀ c ∈ t, 48 ≤ c.toNat ∧ c.toNat ≤ 57 := fun x hx => h x (List.mem_cons_of_mem _ hx)
    have hv : digitValue c = some (c.toNat - 48) := by
      unfold digitValue
      simp only []
      rw [if_pos hc]
    unfold takeDigits
    rw [hv]
    simp only []
    rw [if_pos (by omega), ih ht]
    rfl

/-! ## Rounding to a double -/

theorem roundToDouble_of_le (n : Int) (h : n.natAbs ≤ 2 ^ 53) : roundToDouble n = n := by
  unfold roundToDouble
  simp only []
  rw [if_pos h]

theorem le_capped (q e : Nat) (h : 2 ^ 52 ≤ q) :
    2 ^ 52 ≤ (if 2 ^ 1024 ≤ q * 2 ^ e then 2 ^ 1024 else q * 2 ^ e) := by
  have key : ∀ a b : Nat, a ≤ b → 2 ^ a ≤ 2 ^ b :=
    fun a b hab => Nat.pow_le_pow_right (by decide) hab
  split
  · exact key 52 1024 (by decide)
  · have h3 := Nat.mul_le_mul h (Nat.two_pow_pos e)
    rw [Nat.mul_one] at h3
    exact h3

/-- Beyond 2^53 the rounded value keeps the sign and a magnitude of at least
2^52. -/
theorem roundToDouble_large (n : Int) (h : 2 ^ 53 < n.natAbs) :
    ∃ d : Nat, 2 ^ 52 ≤ d ∧ roundToDouble n = n.sign * (d : Int) := by
  have hm0 : n.natAbs ≠ 0 := by
    have : 0 < 2 ^ 53 := by norm_num
    omega
  have hlog : 53 ≤ Nat.log2 n.natAbs := (Nat.le_log2 hm0).2 (Nat.le_of_lt h)
  have hpow : 2 ^ 52 * 2 ^ (Nat.log2 n.natAbs - 52) ≤ n.natAbs := by
    rw [← Nat.pow_add]
    have e : 52 + (Nat.log2 n.natAbs - 52) = Nat.log2 n.natAbs := by omega
    rw [e]
    exact Nat.log2_self_le hm0
  have hpos : 0 < 2 ^ (Nat.log2 n.natAbs - 52) := Nat.two_pow_pos _
  have hq : 2 ^ 52 ≤ n.natAbs / 2 ^ (Nat.log2 n.natAbs - 52) :=
    (Nat.le_div_iff_mul_le hpos).2 hpow
  unfold roundToDouble
  simp only []
  rw [if_neg (by omega)]
  refine ⟨_, ?_, rfl⟩
  have hq1 : 2 ^ 52 ≤
      (if 2 ^ (Nat.log2 n.natAbs - 52) < 2 * (n.natAbs % 2 ^ (Nat.log2 n.natAbs - 52)) ∨
          (2 * (n.natAbs % 2 ^ (Nat.log2 n.natAbs - 52)) = 2 ^ (Nat.log2 n.natAbs - 52) ∧
            n.natAbs / 2 ^ (Nat.log2 n.natAbs - 52) % 2 = 1)
        then n.natAbs / 2 ^ (Nat.log2 n.natAbs - 52) + 1
        else n.natAbs / 2 ^ (Nat.log2 n.natAbs - 52)) := by
    split <;> omega
  exact le_capped _ _ hq1

/-- Rounding to a double does not change what `clamp(n, 1, 60)` returns. -/
theorem clamp_roundToDouble (n : Int) :
    clamp (.int (roundToDouble n)) (.int 1) (.int 60) = clamp (.int n) (.int 1) (.int 60) := by
  by_cases h : n.natAbs ≤ 2 ^ 53
  · rw [roundToDouble_of_le n h]
  · obtain ⟨d, hd, e⟩ := roundToDouble_large n (by omega)
    rw [e]
    have h52 : (2 : Nat) ^ 52 = 4503599627370496 := by norm_num
    have h53 : (2 : Nat) ^ 53 = 9007199254740992 := by norm_num
    rw [h52] at hd
    rw [h53] at h
    simp only [clamp, mathMin, mathMax]
    congr 1
    rcases Int.lt_or_lt_of_ne (show n ≠ 0 by intro e0; rw [e0] at h; simp at h) with hneg | hpos
    · rw [Int.sign_eq_neg_one_of_neg hneg]
      omega
    · rw [Int.sign_eq_one_of_pos hpos]
      omega

theorem isWhiteSpace_dec (c : Char) (h : 45 ≤ c.toNat ∧ c.toNat ≤ 57) : isWhiteSpace c = false := by
  unfold isWhiteSpace
  simp only [Bool.or_eq_false_iff, Bool.and_eq_false_iff, decide_eq_false_iff_not]
  omega

/-- On a non-empty string of decimal digits `parseInt` returns the number that
the digits write, rounded to a double. -/
theorem parseInt_digits (l : List Char) (hne : l ≠ [])
    (h : ∀ c ∈ l, 48 ≤ c.toNat ∧ c.toNat ≤ 57) :
    parseInt (String.mk l)
      = .int (roundToDouble
          ((l.map (fun c => c.toNat - 48)).foldl (fun acc d => acc * 10 + d) 0 : Nat)) := by
  obtain ⟨c, t, rfl⟩ := List.exists_cons_of_ne_nil hne
  have hc := h c (List.mem_cons_self _ _)
  have hws : isWhiteSpace c = false := isWhiteSpace_dec c ⟨by omega, hc.2⟩
  have hminus : c ≠ '-' := by
    intro e; rw [e] at hc; revert hc; decide
  have hplus : c ≠ '+' := by
    intro e; rw [e] at hc; revert hc; decide
  have hhex : ¬ ((c :: t).take 2 = ['0', 'x'] ∨ (c :: t).take 2 = ['0', 'X']) := by
    intro e
    cases t with
    | nil => simp at e
    | cons d t' =>
      have hd := h d (List.mem_cons_of_mem _ (List.mem_cons_self _ _))
      simp only [List.take_succ_cons, List.take_zero, List.cons.injEq, and_true] at e
      rcases e with ⟨_, e⟩ | ⟨_, e⟩ <;> (rw [e] at hd; revert hd; decide)
  unfold parseInt
  simp only [String.toList, List.dropWhile_cons, hws, List.head?_cons, Option.some.injEq, hminus, hplus,
    or_self, if_false, hhex, decide_False, Bool.false_eq_true]
  rw [takeDigits_dec _ h]
  simp [digitsValue]

/-- On a minus sign followed by a non-empty string of decimal digits
`parseInt` returns the negated number, rounded to a double. -/
theorem parseInt_minus_digits (l : List Char) (hne : l ≠ [])
    (h : ∀ c ∈ l, 48 ≤ c.toNat ∧ c.toNat ≤ 57) :
    parseInt (String.mk ('-' :: l))
      = .int (roundToDouble
          (-((l.map (fun c => c.toNat - 48)).foldl (fun acc d => acc * 10 + d) 0 : Nat))) := by
  obtain ⟨c, t, rfl⟩ := List.exists_cons_of_ne_nil hne
  have hc := h c (List.mem_cons_self _ _)
  have hws : isWhiteSpace '-' = false := by decide
  have hhex : ¬ ((c :: t).take 2 = ['0', 'x'] ∨ (c :: t).take 2 = ['0', 'X']) := by
    intro e
    cases t with
    | nil => simp at e
    | cons d t' =>
      have hd := h d (List.mem_cons_of_mem _ (List.mem_cons_self _ _))
      simp only [List.take_succ_cons, List.take_zero, List.cons.injEq, and_true] at e
      rcases e with ⟨_, e⟩ | ⟨_, e⟩ <;> (rw [e] at hd; revert hd; decide)
  unfold parseInt
  simp only [String.toList, List.dropWhile_cons, hws, List.head?_cons, or_true, if_true, List.tail_cons, hhex,
    decide_False, Bool.false_eq_true, if_false]
  rw [takeDigits_dec _ h]
  simp [digitsValue]

/-- What `parseInt` reads back from the decimal numeral of an integer is that
integer, rounded to a double. -/
theorem parseInt_decimalText (n : Int) :
    parseInt (decimalText n) = .int (roundToDouble n) := by
  have hnil : ∀ c ∈ ([] : List Char), 48 ≤ c.toNat ∧ c.toNat ≤ 57 := by simp
  cases n with
  | ofNat m =>
    unfold decimalText
    simp only [Nat.toDigits]
    rw [parseInt_digits _ (toDigitsCore_ne_nil m m []) (toDigitsCore_dec _ _ _ hnil)]
    rw [toDigitsCore_value (m + 1) m [] (by omega)]
    simp
  | negSucc m =>
    unfold decimalText
    simp only [Nat.toDigits]
    rw [parseInt_minus_digits _ (toDigitsCore_ne_nil (m + 1) (m + 1) [])
      (toDigitsCore_dec _ _ _ hnil)]
    rw [toDigitsCore_value (m + 1 + 1) (m + 1) [] (by omega)]
    simp [Int.negSucc_eq]

theorem orZero_decimalText (n : Int) : orZero (decimalText n) = decimalText n := by
  unfold orZero
  rw [if_neg]
  intro e
  have := congrArg String.toList e
  cases n with
  | ofNat m =>
    simp only [decimalText, Nat.toDigits] at this
    exact toDigitsCore_ne_nil m m [] this
  | negSucc m =>
    simp [decimalText] at this

/-! ## The shape invariant -/

theorem hasShape_of_map_length (g g' : Grid) (R C : Nat) (h : HasShape g R C)
    (hl : g'.map List.length = g.map List.length) : HasShape g' R C := by
  obtain ⟨hlen, hrows⟩ := h
  constructor
  · have := congrArg List.length hl
    simp at this
    omega
  · intro row hrow
    have hm : row.length ∈ g'.map List.length := List.mem_map_of_mem _ hrow
    rw [hl, List.mem_map] at hm
    obtain ⟨row0, h0, e⟩ := hm
    rw [← e]
    exact hrows row0 h0

theorem clamp_of_int (k : Int) :
    ∃ n : Int, clamp (.int k) (.int 1) (.int 60) = .int n ∧ 1 ≤ n ∧ n ≤ 60 := by
  refine ⟨max 1 (min 60 k), rfl, ?_, ?_⟩ <;> omega

theorem onChange_integer (value : String) (h : parseInt (orZero value) ≠ Num.nan) :
    ∃ n : Int, clamp (parseInt (orZero value)) (.int 1) (.int 60) = .int n ∧ 1 ≤ n ∧ n ≤ 60 := by
  cases hp : parseInt (orZero value) with
  | nan => exact absurd hp h
  | int k => exact clamp_of_int k

/-- After the effect has run on a state whose counts are integers in [1,60],
the invariant holds, whether or not a dependency had changed. -/
theorem runEffect_invariant (old s s' : State) (hold : ShapeInvariant old)
    (hgrid : s.grid = old.grid)
    (hR : ∃ R : Int, s.rows = .int R ∧ 1 ≤ R ∧ R ≤ 60)
    (hC : ∃ C : Int, s.cols = .int C ∧ 1 ≤ C ∧ C ≤ 60)
    (h : runEffect old s = some s') : ShapeInvariant s' := by
  unfold runEffect at h
  by_cases hdep : s.rows = old.rows ∧ s.cols = old.cols
  · rw [if_pos hdep] at h
    have e : s' = s := (Option.some.inj h).symm
    subst e
    refine ⟨hR, hC, ?_⟩
    rw [hdep.1, hdep.2, hgrid]
    exact hold.2.2
  · rw [if_neg hdep, resize_eq] at h
    simp only [Option.map_some'] at h
    have e := (Option.some.inj h).symm
    subst e
    exact ⟨hR, hC, hasShape_tabulate _ _ _⟩

theorem toLength_clamp_of_invariant (n : Num) (h : ∃ R : Int, n = .int R ∧ 1 ≤ R ∧ R ≤ 60) :
    clamp n (.int 1) (.int 60) = n ∧ loopCount n ≤ toLength n := by
  obtain ⟨R, rfl, h1, h2⟩ := h
  refine ⟨clamp_int R h1 h2, ?_⟩
  simp [loopCount, toLength]
  omega

/-- An enabled event never throws. -/
theorem step_total (s : State) (e : Event) (hs : ShapeInvariant s)
    (hen : Event.enabled s e = true) : ∃ s', step s e = some s' := by
  obtain ⟨hR, hC, hshape⟩ := hs
  unfold step
  rw [if_pos hen]
  cases e with
  | rowsInput value =>
    simp only [runEffect]
    split
    · exact ⟨_, rfl⟩
    · rw [resize_eq]; exact ⟨_, rfl⟩
  | colsInput value =>
    simp only [runEffect]
    split
    · exact ⟨_, rfl⟩
    · rw [resize_eq]; exact ⟨_, rfl⟩
  | sizeInput value => exact ⟨_, rfl⟩
  | gapInput value => exact ⟨_, rfl⟩
  | pickColor c => exact ⟨_, rfl⟩
  | paintCell r c =>
    simp only [Event.enabled] at hen
    cases hrow : s.grid[r]? with
    | none => rw [hrow] at hen; simp at hen
    | some row =>
      rw [hrow] at hen
      simp only [decide_eq_true_eq] at hen
      have hv : row[c]? = some (row[c]) := List.getElem?_eq_getElem hen
      simp only []
      rw [paint_eq s.color s.grid r c row _ hrow hv]
      exact ⟨_, rfl⟩
  | clear => exact ⟨_, rfl⟩
  | fill => exact ⟨_, rfl⟩
  | checkerboard =>
    simp only []
    rw [checker_eq s.rows s.cols s.color (toLength_clamp_of_invariant _ hR).2
      (toLength_clamp_of_invariant _ hC).2]
    exact ⟨_, rfl⟩

/-- One event with integer-parseable text keeps the invariant. -/
theorem step_invariant (s s' : State) (e : Event) (hs : ShapeInvariant s)
    (hint : Event.integerInput e = true) (h : step s e = some s') : ShapeInvariant s' := by
  have hs0 := hs
  obtain ⟨hR, hC, hshape⟩ := hs
  unfold step at h
  by_cases hen : Event.enabled s e = true
  · rw [if_pos hen] at h
    cases e with
    | rowsInput value =>
      simp only [Event.integerInput, decide_eq_true_eq] at hint
      exact runEffect_invariant s { s with rows := rowsOnChange value } s' hs0 rfl
        (onChange_integer value hint) hC h
    | colsInput value =>
      simp only [Event.integerInput, decide_eq_true_eq] at hint
      exact runEffect_invariant s { s with cols := colsOnChange value } s' hs0 rfl hR
        (onChange_integer value hint) h
    | sizeInput value =>
      have e := (Option.some.inj h).symm
      subst e
      exact ⟨hR, hC, hshape⟩
    | gapInput value =>
      have e := (Option.some.inj h).symm
      subst e
      exact ⟨hR, hC, hshape⟩
    | pickColor c =>
      have e := (Option.some.inj h).symm
      subst e
      exact ⟨hR, hC, hshape⟩
    | paintCell r c =>
      simp only [Event.enabled] at hen
      cases hrow : s.grid[r]? with
      | none => rw [hrow] at hen; simp at hen
      | some row =>
        rw [hrow] at hen
        simp only [decide_eq_true_eq] at hen
        have hv : cellAt s.grid r c = some (row[c]) := by
          unfold cellAt
          rw [hrow]
          exact List.getElem?_eq_getElem hen
        obtain ⟨g', hp, hl, _⟩ := paint_cells s.color s.grid r c _ hv
        simp only [] at h
        rw [hp] at h
        simp only [Option.map_some'] at h
        have e := (Option.some.inj h).symm
        subst e
        exact ⟨hR, hC, hasShape_of_map_length _ _ _ _ hshape hl⟩
    | clear =>
      have e := (Option.some.inj h).symm
      subst e
      refine ⟨hR, hC, ?_⟩
      simp only [clearAll]
      rw [(toLength_clamp_of_invariant _ hR).1, (toLength_clamp_of_invariant _ hC).1,
        makeGrid_eq_tabulate]
      exact hasShape_tabulate _ _ _
    | fill =>
      have e := (Option.some.inj h).symm
      subst e
      refine ⟨hR, hC, ?_⟩
      simp only [fillAll]
      rw [(toLength_clamp_of_invariant _ hR).1, (toLength_clamp_of_invariant _ hC).1,
        makeGrid_eq_tabulate]
      exact hasShape_tabulate _ _ _
    | checkerboard =>
      simp only [] at h
      rw [checker_eq s.rows s.cols s.color (toLength_clamp_of_invariant _ hR).2
        (toLength_clamp_of_invariant _ hC).2] at h
      simp only [Option.map_some'] at h
      have e := (Option.some.inj h).symm
      subst e
      refine ⟨hR, hC, ?_⟩
      simp only []
      rw [(toLength_clamp_of_invariant _ hR).1, (toLength_clamp_of_invariant _ hC).1]
      exact hasShape_tabulate _ _ _
  · rw [if_neg hen] at h
    exact absurd h (by simp)

theorem run_invariant (es : List Event) : ∀ (s s' : State), ShapeInvariant s →
    (∀ e ∈ es, Event.integerInput e = true) → run s es = some s' → ShapeInvariant s' := by
  induction es with
  | nil =>
    intro s s' hs _ h
    simp only [run, List.foldlM_nil] at h
    have e := Option.some.inj h
    subst e
    exact hs
  | cons e es ih =>
    intro s s' hs hint h
    simp only [run, List.foldlM_cons] at h
    cases hstep : step s e with
    | none => rw [hstep] at h; simp at h
    | some s1 =>
      rw [hstep] at h
      simp only [Option.bind_eq_bind, Option.some_bind] at h
      exact ih s1 s' (step_invariant s s1 e hs (hint e (List.mem_cons_self _ _)) hstep)
        (fun x hx => hint x (List.mem_cons_of_mem _ hx)) h

theorem initialState_invariant : ShapeInvariant initialState := by
  refine ⟨⟨8, rfl, by omega, by omega⟩, ⟨8, rfl, by omega, by omega⟩, ?_⟩
  simp only [initialState]
  rw [makeGrid_eq_tabulate, clamp_int 8 (by omega) (by omega)]
  exact hasShape_tabulate _ _ _

/-! ## Paint on the heap -/

/-- Reading the fresh addresses after one of the fresh rows was written gives
the copies with that row replaced. -/
theorem deref_fresh (h : Heap) (copies : List Row) (r : Nat) (row' : Row) :
    deref ((h ++ copies).set (h.length + r) row') (List.range' h.length copies.length)
      = copies.set r row' := by
  apply List.ext_getElem?
  intro i
  unfold deref
  rw [List.getElem?_map, List.getElem?_set]
  by_cases hi : i < copies.length
  · rw [List.getElem?_range' _ _ hi]
    simp only [Option.map_some', List.getD_eq_getElem?_getD, List.getElem?_set]
    have hlen : h.length + i < (h ++ copies).length := by simp; omega
    by_cases hir : r = i
    · subst hir
      have hlen' : h.length + r < (h ++ copies).length := hlen
      simp [hi]
    · have hne : ¬ h.length + r = h.length + 1 * i := by omega
      rw [if_neg hne, if_neg hir, List.getElem?_append_right (by omega)]
      have e : h.length + 1 * i - h.length = i := by omega
      rw [e, List.getElem?_eq_getElem hi]
      rfl
  · have hn : (List.range' h.length copies.length)[i]? = none := by
      apply List.getElem?_eq_none; simp; omega
    have hn2 : copies[i]? = none := by
      apply List.getElem?_eq_none; omega
    rw [hn, hn2]
    have hir : ¬ r = i ∨ ¬ r < copies.length := by omega
    by_cases hri : r = i
    · subst hri; simp [hi]
    · simp [hri]

/-- Reading old addresses is not affected by appending rows or by writing a
row at a fresh address. -/
theorem deref_old (h : Heap) (copies : List Row) (r : Nat) (row' : Row) (gp : GridRef)
    (hvalid : ∀ p ∈ gp, p < h.length) :
    deref ((h ++ copies).set (h.length + r) row') gp = deref h gp := by
  unfold deref
  apply List.map_congr_left
  intro p hp
  have hpl := hvalid p hp
  have hne : ¬ h.length + r = p := by omega
  simp only [List.getD_eq_getElem?_getD, List.getElem?_set]
  rw [if_neg hne, List.getElem?_append_left hpl]

/-- The heap version of `paint` computes what `paint` computes, and the old
addresses still denote the old grid afterwards. -/
theorem paintHeap_refines (a : String) (r c : Nat) (h : Heap) (gp : GridRef)
    (hvalid : ∀ p ∈ gp, p < h.length) (hr : r < gp.length) :
    ∃ h' gp', paintHeap a r c h gp = some (h', gp') ∧
      paint a r c (deref h gp) = some (deref h' gp') ∧ deref h' gp = deref h gp := by
  have hnext : (List.range' h.length gp.length)[r]? = some (h.length + r) := by
    rw [List.getElem?_range' _ _ hr]; simp
  have hrow : (h ++ gp.map (fun p => h.getD p [])).getD (h.length + r) []
      = h.getD gp[r] [] := by
    simp [List.getD_eq_getElem?_getD, List.getElem?_append_right, List.getElem?_eq_getElem hr]
  have hderef : (deref h gp)[r]? = some (h.getD gp[r] []) := by
    simp [deref, List.getElem?_eq_getElem hr]
  have hP : paintHeap a r c h gp
      = some ((h ++ gp.map (fun p => h.getD p [])).set (h.length + r)
          (setRow (h.getD gp[r] []) c
            (if (h.getD gp[r] []).getD c Cell.undefined = Cell.str a then Cell.null
              else Cell.str a)),
        List.range' h.length (gp.map (fun p => h.getD p [])).length) := by
    unfold paintHeap
    simp only [List.drop_zero]
    rw [hnext]
    simp only [hrow, List.length_map]
  refine ⟨_, _, hP, ?_, deref_old h _ r _ gp hvalid⟩
  rw [deref_fresh]
  unfold paint
  simp only [List.drop_zero, List.map_id']
  unfold getCell setCell
  rw [hderef]
  rfl

/-! ## The resize rule -/

/-- C1. Grid resize rule: for every rectangular old grid `g` of `R ≥ 1` rows
and `C` columns and all new counts `R'`, `C'` in [1,60], the resize updater
returns a grid of exactly `R'` rows of exactly `C'` cells whose cell `(r, c)`
is the cell `(r, c)` of `g` for `r < min R R'` and `c < min C C'`, and whose
every other cell is unset (`null`). -/
theorem resize_preserves_overlap (g : Grid) (R C R' C' : Nat) (hg : HasShape g R C)
    (hR : 1 ≤ R) (hR' : 1 ≤ R' ∧ R' ≤ 60) (hC' : 1 ≤ C' ∧ C' ≤ 60) :
    ∃ g', resize (.int R') (.int C') g = some g' ∧ HasShape g' R' C' ∧
      ∀ r c, r < R' → c < C' →
        cellAt g' r c
          = if r < min R R' ∧ c < min C C' then cellAt g r c else some Cell.null := by
  have eR : clamp (.int R') (.int 1) (.int 60) = .int R' := clamp_int R' (by omega) (by omega)
  have eC : clamp (.int C') (.int 1) (.int 60) = .int C' := clamp_int C' (by omega) (by omega)
  have tR : toLength (.int (R' : Int)) = R' := by simp [toLength]; omega
  have tC : toLength (.int (C' : Int)) = C' := by simp [toLength]; omega
  have hfirst := firstRowLength_of_hasShape g R C hg hR
  have lR : loopCount (mathMin (.int (R' : Int)) (.int (g.length : Int))) = min R R' := by
    rw [hg.1]; simp [mathMin, loopCount]; omega
  have lC : loopCount (mathMin (.int (C' : Int)) (.int (firstRowLength g : Int))) = min C C' := by
    rw [hfirst]; simp [mathMin, loopCount]; omega
  refine ⟨_, resize_eq _ _ g, ?_, ?_⟩
  · rw [eR, eC, tR, tC]
    exact hasShape_tabulate _ _ _
  · intro r c hr hc
    rw [eR, eC, tR, tC, lR, lC, cellAt_tabulate, if_pos ⟨hr, hc⟩]
    by_cases h : r < min R R' ∧ c < min C C'
    · rw [if_pos h, if_pos h]
      exact (cellAt_of_hasShape g R C hg r c (by omega) (by omega)).symm
    · rw [if_neg h, if_neg h]

/-- C1 at the scenario of the specification: a 2×2 grid with cell (0,0)
painted, resized to 1×2. -/
theorem resize_preserves_overlap_witness :
    ∃ g', resize (.int (1 : Nat)) (.int (2 : Nat))
        [[Cell.str "#ef4444", Cell.null], [Cell.null, Cell.null]] = some g' ∧
      HasShape g' 1 2 ∧
      ∀ r c, r < 1 → c < 2 →
        cellAt g' r c
          = if r < min 2 1 ∧ c < min 2 2
            then cellAt [[Cell.str "#ef4444", Cell.null], [Cell.null, Cell.null]] r c
            else some Cell.null :=
  resize_preserves_overlap [[Cell.str "#ef4444", Cell.null], [Cell.null, Cell.null]] 2 2 1 2
    (by simp [HasShape]) (by decide) (by decide) (by decide)

/-- C10. Resizing a rectangular grid of `R` rows and `C` columns, `R` and `C`
in [1,60], to `(R, C)` returns the same grid, so the first run of the effect
on the initial 8×8 grid changes nothing; and for every target, resizing the
result of a resize again returns that result. -/
theorem resize_same_dimensions (g : Grid) (R C : Nat) (hg : HasShape g R C)
    (hR : 1 ≤ R ∧ R ≤ 60) (hC : 1 ≤ C ∧ C ≤ 60) :
    resize (.int R) (.int C) g = some g ∧
      mounted = some initialState ∧
      ∀ (rows cols : Num) (g0 : Grid),
        ∃ g1, resize rows cols g0 = some g1 ∧ resize rows cols g1 = some g1 := by
  refine ⟨?_, ?_, ?_⟩
  · apply resize_of_hasShape
    rw [clamp_int R (by omega) (by omega), clamp_int C (by omega) (by omega)]
    have tR : toLength (.int (R : Int)) = R := by simp [toLength]; omega
    have tC : toLength (.int (C : Int)) = C := by simp [toLength]; omega
    rw [tR, tC]
    exact hg
  · unfold mounted
    rw [resize_of_hasShape]
    · rfl
    · simp only [initialState]
      rw [makeGrid_eq_tabulate, clamp_int 8 (by omega) (by omega)]
      exact hasShape_tabulate _ _ _
  · intro rows cols g0
    refine ⟨_, resize_eq rows cols g0, ?_⟩
    apply resize_of_hasShape
    exact hasShape_tabulate _ _ _

/-- C10 at a 2×2 grid with one painted cell. -/
theorem resize_same_dimensions_witness :
    resize (.int (2 : Nat)) (.int (2 : Nat))
        [[Cell.str "#ef4444", Cell.null], [Cell.null, Cell.null]]
      = some [[Cell.str "#ef4444", Cell.null], [Cell.null, Cell.null]] ∧
      mounted = some initialState ∧
      ∀ (rows cols : Num) (g0 : Grid),
        ∃ g1, resize rows cols g0 = some g1 ∧ resize rows cols g1 = some g1 :=
  resize_same_dimensions [[Cell.str "#ef4444", Cell.null], [Cell.null, Cell.null]] 2 2
    (by simp [HasShape]) (by decide) (by decide)

/-! ## Bulk operations -/

theorem toLength_int_nat (n : Nat) (h : n ≤ 60) : toLength (.int (n : Int)) = n := by
  simp [toLength]; omega

/-- C7. Checkerboard: for all `rows = R` and `cols = C` in [1,60] and every
active color `a` there is one grid `G` of `R` rows of `C` cells, with cell
`(r, c)` equal to `a` when `r + c` is even and unset otherwise, that the
checkerboard button sets from every state with these counts and this color,
whatever the grid was before. -/
theorem checkerboard_cells (R C : Nat) (a : String) (hR : 1 ≤ R ∧ R ≤ 60)
    (hC : 1 ≤ C ∧ C ≤ 60) :
    ∃ G : Grid, HasShape G R C ∧
      (∀ r c, r < R → c < C →
        cellAt G r c = some (if (r + c) % 2 = 0 then Cell.str a else Cell.null) ∧
        (cellAt G r c = some (Cell.str a) ↔ (r + c) % 2 = 0)) ∧
      ∀ s : State, s.rows = .int R → s.cols = .int C → s.color = a →
        step s Event.checkerboard = some { s with grid := G } := by
  have tR := toLength_int_nat R hR.2
  have tC := toLength_int_nat C hC.2
  have hck := checker_eq (.int R) (.int C) a
    (by rw [tR]; simp [loopCount]) (by rw [tC]; simp [loopCount])
  rw [tR, tC] at hck
  have hcell : ∀ r c, r < R → c < C →
      cellAt (tabulate R C (fun r c =>
          if r < loopCount (.int (R : Int)) ∧ c < loopCount (.int (C : Int)) ∧ (r + c) % 2 = 0
          then Cell.str a else Cell.null)) r c
        = some (if (r + c) % 2 = 0 then Cell.str a else Cell.null) := by
    intro r c hr hc
    rw [cellAt_tabulate, if_pos ⟨hr, hc⟩]
    simp [loopCount, hr, hc]
  refine ⟨tabulate R C (fun r c =>
      if r < loopCount (.int (R : Int)) ∧ c < loopCount (.int (C : Int)) ∧ (r + c) % 2 = 0
      then Cell.str a else Cell.null), hasShape_tabulate R C _, ?_, ?_⟩
  · intro r c hr hc
    refine ⟨hcell r c hr hc, ?_⟩
    rw [hcell r c hr hc]
    by_cases hp : (r + c) % 2 = 0
    · simp [hp]
    · simp [hp]
  · intro s hrows hcols hcolor
    simp only [step, Event.enabled, if_true]
    rw [hrows, hcols, hcolor, hck]
    rfl

/-- C7 at the scenario of the specification: a 5×5 grid filled with one
color, then the checkerboard of another. -/
theorem checkerboard_cells_witness :
    ∃ G : Grid, HasShape G 5 5 ∧
      (∀ r c, r < 5 → c < 5 →
        cellAt G r c = some (if (r + c) % 2 = 0 then Cell.str "#ef4444" else Cell.null) ∧
        (cellAt G r c = some (Cell.str "#ef4444") ↔ (r + c) % 2 = 0)) ∧
      ∀ s : State, s.rows = .int (5 : Nat) → s.cols = .int (5 : Nat) → s.color = "#ef4444" →
        step s Event.checkerboard = some { s with grid := G } :=
  checkerboard_cells 5 5 "#ef4444" (by decide) (by decide)

/-- C8. Fill: for all `rows = R` and `cols = C` in [1,60] and every active
color `a` there is one grid `G` of `R` rows of `C` cells, every cell equal to
`a`, that the fill button sets from every state with these counts and this
color, whatever the grid was before. -/
theorem fillAll_cells (R C : Nat) (a : String) (hR : 1 ≤ R ∧ R ≤ 60) (hC : 1 ≤ C ∧ C ≤ 60) :
    ∃ G : Grid, HasShape G R C ∧
      (∀ r c, r < R → c < C → cellAt G r c = some (Cell.str a)) ∧
      ∀ s : State, s.rows = .int R → s.cols = .int C → s.color = a →
        step s Event.fill = some { s with grid := G } := by
  have tR := toLength_int_nat R hR.2
  have tC := toLength_int_nat C hC.2
  refine ⟨tabulate R C (fun _ _ => Cell.str a), hasShape_tabulate R C _, ?_, ?_⟩
  · intro r c hr hc
    rw [cellAt_tabulate, if_pos ⟨hr, hc⟩]
  · intro s hrows hcols hcolor
    simp only [step, Event.enabled, if_true, fillAll]
    rw [hrows, hcols, hcolor, makeGrid_eq_tabulate, tR, tC]

/-- C8 on a 5×5 grid. -/
theorem fillAll_cells_witness :
    ∃ G : Grid, HasShape G 5 5 ∧
      (∀ r c, r < 5 → c < 5 → cellAt G r c = some (Cell.str "#f59e0b")) ∧
      ∀ s : State, s.rows = .int (5 : Nat) → s.cols = .int (5 : Nat) → s.color = "#f59e0b" →
        step s Event.fill = some { s with grid := G } :=
  fillAll_cells 5 5 "#f59e0b" (by decide) (by decide)

/-! ## Paint -/

/-- C4. Paint postcondition and frame: for every grid `g`, every position
`(r, c)` that holds a cell `v` and every active color `a`, the updater of
`paint` returns a grid with the same row lengths whose cell `(r, c)` is unset
when `v` is `a` and is `a` otherwise, and whose every other cell is the
corresponding cell of `g`. The input grid is not changed: with the rows in
memory, the updater writes only to fresh copies, so the addresses of `g`
denote `g` afterwards as before, and the addresses returned denote the new
grid. -/
theorem paint_toggles_cell (a : String) (g : Grid) (r c : Nat) (v : Cell)
    (h : cellAt g r c = some v) :
    ∃ g', paint a r c g = some g' ∧ g'.map List.length = g.map List.length ∧
      cellAt g' r c = some (if v = Cell.str a then Cell.null else Cell.str a) ∧
      (∀ r' c', (r' ≠ r ∨ c' ≠ c) → cellAt g' r' c' = cellAt g r' c') ∧
      ∀ (m : Heap) (gp : GridRef), (∀ p ∈ gp, p < m.length) → deref m gp = g →
        ∃ m' gp', paintHeap a r c m gp = some (m', gp') ∧ deref m' gp' = g' ∧
          deref m' gp = g := by
  obtain ⟨g', hp, hl, hcells⟩ := paint_cells a g r c v h
  refine ⟨g', hp, hl, ?_, ?_, ?_⟩
  · rw [hcells r c]; simp
  · intro r' c' hne
    rw [hcells r' c']
    have : ¬ (r' = r ∧ c' = c) := by
      intro ⟨e1, e2⟩
      rcases hne with h1 | h1
      · exact h1 e1
      · exact h1 e2
    rw [if_neg this]
  · intro m gp hvalid hg
    obtain ⟨_, _, _, _, hr⟩ := cellAt_rows g r c v h
    have hr' : r < gp.length := by
      have := congrArg List.length hg
      simp [deref] at this
      omega
    obtain ⟨m', gp', hP, hpaint, hold⟩ := paintHeap_refines a r c m gp hvalid hr'
    refine ⟨m', gp', hP, ?_, by rw [hold, hg]⟩
    rw [hg, hp] at hpaint
    exact (Option.some.inj hpaint).symm

/-- C4 at the scenario of the specification: painting cell (0,0) of an unset
2×2 grid. -/
theorem paint_toggles_cell_witness :
    ∃ g', paint "#ef4444" 0 0 [[Cell.null, Cell.null], [Cell.null, Cell.null]] = some g' ∧
      g'.map List.length
        = ([[Cell.null, Cell.null], [Cell.null, Cell.null]] : Grid).map List.length ∧
      cellAt g' 0 0
        = some (if Cell.null = Cell.str "#ef4444" then Cell.null else Cell.str "#ef4444") ∧
      (∀ r' c', (r' ≠ 0 ∨ c' ≠ 0) →
        cellAt g' r' c' = cellAt [[Cell.null, Cell.null], [Cell.null, Cell.null]] r' c') ∧
      ∀ (m : Heap) (gp : GridRef), (∀ p ∈ gp, p < m.length) →
        deref m gp = [[Cell.null, Cell.null], [Cell.null, Cell.null]] →
        ∃ m' gp', paintHeap "#ef4444" 0 0 m gp = some (m', gp') ∧ deref m' gp' = g' ∧
          deref m' gp = [[Cell.null, Cell.null], [Cell.null, Cell.null]] :=
  paint_toggles_cell "#ef4444" [[Cell.null, Cell.null], [Cell.null, Cell.null]] 0 0 Cell.null
    (by decide)

/-- C2 as stated fails: a cell that holds a color other than the active one
is unset after two paints, not returned to its former value. -/
theorem paint_twice_counterexample :
    (paint "#ef4444" 0 0 [[Cell.str "#3b82f6"]]).bind (paint "#ef4444" 0 0)
        = some [[Cell.null]] ∧
      (paint "#ef4444" 0 0 [[Cell.str "#3b82f6"]]).bind (paint "#ef4444" 0 0)
        ≠ some [[Cell.str "#3b82f6"]] := by
  constructor <;> decide

/-- C2, amended. For every grid `g`, every position `(r, c)` that holds a
cell `v` and every active color `a`, painting `(r, c)` twice returns a grid
that is `g` exactly when `v` is unset or is `a`; when `v` is anything else the
cell is unset afterwards. In both cases every other cell is as in `g`. -/
theorem paint_twice (a : String) (g : Grid) (r c : Nat) (v : Cell)
    (h : cellAt g r c = some v) :
    ∃ g2, (paint a r c g).bind (paint a r c) = some g2 ∧
      (g2 = g ↔ (v = Cell.null ∨ v = Cell.str a)) ∧
      cellAt g2 r c = some (if v = Cell.str a then Cell.str a else Cell.null) ∧
      ∀ r' c', (r' ≠ r ∨ c' ≠ c) → cellAt g2 r' c' = cellAt g r' c' := by
  obtain ⟨g1, hp1, hl1, hc1⟩ := paint_cells a g r c v h
  have h1 : cellAt g1 r c = some (if v = Cell.str a then Cell.null else Cell.str a) := by
    rw [hc1 r c]; simp
  obtain ⟨g2, hp2, hl2, hc2⟩ := paint_cells a g1 r c _ h1
  have hcell : cellAt g2 r c = some (if v = Cell.str a then Cell.str a else Cell.null) := by
    rw [hc2 r c]
    by_cases hv : v = Cell.str a
    · simp [hv]
    · simp [hv]
  have hframe : ∀ r' c', (r' ≠ r ∨ c' ≠ c) → cellAt g2 r' c' = cellAt g r' c' := by
    intro r' c' hne
    have : ¬ (r' = r ∧ c' = c) := by
      intro ⟨e1, e2⟩
      rcases hne with h1 | h1
      · exact h1 e1
      · exact h1 e2
    rw [hc2 r' c', if_neg this, hc1 r' c', if_neg this]
  refine ⟨g2, by rw [hp1]; exact hp2, ?_, hcell, hframe⟩
  constructor
  · intro e
    rw [e, h] at hcell
    by_cases hv : v = Cell.str a
    · right; exact hv
    · left
      rw [if_neg hv] at hcell
      exact Option.some.inj hcell
  · intro hv
    apply grid_ext
    · have := congrArg List.length (hl2.trans hl1)
      simpa using this
    · intro r' c'
      by_cases hpos : r' = r ∧ c' = c
      · rw [hpos.1, hpos.2, hcell, h]
        rcases hv with hv | hv
        · subst hv; simp
        · subst hv; simp
      · apply hframe
        by_contra hcon
        push_neg at hcon
        exact hpos hcon

/-- C2, amended, at the toggle cycle of the specification: an unset cell is
unset again after two paints. -/
theorem paint_twice_witness :
    ∃ g2, (paint "#ef4444" 0 0 [[Cell.null, Cell.null]]).bind (paint "#ef4444" 0 0) = some g2 ∧
      (g2 = [[Cell.null, Cell.null]] ↔ (Cell.null = Cell.null ∨ Cell.null = Cell.str "#ef4444")) ∧
      cellAt g2 0 0
        = some (if Cell.null = Cell.str "#ef4444" then Cell.str "#ef4444" else Cell.null) ∧
      ∀ r' c', (r' ≠ 0 ∨ c' ≠ 0) → cellAt g2 r' c' = cellAt [[Cell.null, Cell.null]] r' c' :=
  paint_twice "#ef4444" [[Cell.null, Cell.null]] 0 0 Cell.null (by decide)

/-! ## The shape invariant on traces -/

/-- Where every rows and columns input of a trace from the default state is
integer-parseable, the shape invariant holds in the state reached, and from
that state every event that the page offers runs without an error. -/
theorem shape_invariant_of_integer_inputs (es : List Event) (s : State)
    (hint : ∀ e ∈ es, Event.integerInput e = true) (hrun : run initialState es = some s) :
    ShapeInvariant s ∧ ∀ e, Event.enabled s e = true → ∃ s', step s e = some s' := by
  have hs := run_invariant es initialState s initialState_invariant hint hrun
  exact ⟨hs, fun e hen => step_total s e hs hen⟩

/-- C3 fails on the code. From the default state the rows input can hand the
text `.5` to its handler; `parseInt` reads it as `NaN`, `clamp` passes `NaN`
on and it is stored as the row count; the resize effect then leaves a grid of
no rows. In the state reached the stored rows are not in [1,60], and so the
shape invariant does not hold. The same happens through the columns input,
where the grid keeps its 8 rows and they are empty. -/
theorem shape_invariant_broken :
    Event.enabled initialState (Event.rowsInput ".5") = true ∧
      run initialState [Event.rowsInput ".5"]
        = some { initialState with rows := .nan, grid := [] } ∧
      ¬ ShapeInvariant { initialState with rows := .nan, grid := [] } ∧
      run initialState [Event.colsInput ".5"]
        = some { initialState with cols := .nan, grid := [[], [], [], [], [], [], [], []] } ∧
      ¬ ShapeInvariant
        { initialState with cols := .nan, grid := [[], [], [], [], [], [], [], []] } := by
  refine ⟨by decide, by decide, ?_, by decide, ?_⟩
  · rintro ⟨⟨R, hR, _⟩, _⟩
    exact Num.noConfusion hR
  · rintro ⟨_, ⟨C, hC, _⟩, _⟩
    exact Num.noConfusion hC

/-! ## The input handlers -/

/-- C5. Dimension clamping: for every integer `n`, the rows handler given the
numeral of `n` stores `clamp(n, 1, 60)`, which is 1 when `n < 1`, 60 when
`n > 60` and `n` otherwise, and so lies in [1,60]; the columns handler does
the same; and so does either handler on any text that `parseInt` reads as
`n`. -/
theorem dimension_clamp (n : Int) :
    rowsOnChange (decimalText n) = clamp (.int n) (.int 1) (.int 60) ∧
      colsOnChange (decimalText n) = clamp (.int n) (.int 1) (.int 60) ∧
      clamp (.int n) (.int 1) (.int 60) = .int (if n < 1 then 1 else if 60 < n then 60 else n) ∧
      (1 : Int) ≤ (if n < 1 then 1 else if 60 < n then 60 else n) ∧
      (if n < 1 then 1 else if 60 < n then 60 else n) ≤ (60 : Int) ∧
      ∀ value : String, parseInt (orZero value) = .int n →
        rowsOnChange value = clamp (.int n) (.int 1) (.int 60) ∧
          colsOnChange value = clamp (.int n) (.int 1) (.int 60) := by
  refine ⟨?_, ?_, ?_, ?_, ?_, ?_⟩
  · unfold rowsOnChange
    rw [orZero_decimalText, parseInt_decimalText, clamp_roundToDouble]
  · unfold colsOnChange
    rw [orZero_decimalText, parseInt_decimalText, clamp_roundToDouble]
  · simp only [clamp, mathMin, mathMax]
    congr 1
    split_ifs <;> omega
  · split_ifs <;> omega
  · split_ifs <;> omega
  · intro value hv
    unfold rowsOnChange colsOnChange
    rw [hv]
    exact ⟨rfl, rfl⟩

/-- The numeral of every value of a range control with small bounds is read
back by `parseInt` as that value. -/
theorem parseInt_rangeTexts (lo hi step : Int) (hlo : -(2 ^ 53) ≤ lo) (hhi : hi ≤ 2 ^ 53)
    (hstep : 1 ≤ step) (hle : lo ≤ hi) (value : String) (h : value ∈ rangeTexts lo hi step) :
    ∃ k : Int, value = decimalText k ∧ parseInt value = .int k ∧ lo ≤ k ∧ k ≤ hi ∧
      (k - lo) % step = 0 := by
  unfold rangeTexts rangeValues at h
  simp only [List.mem_map, List.mem_range] at h
  obtain ⟨k, ⟨i, hi', rfl⟩, rfl⟩ := h
  have h0 : 0 ≤ (hi - lo) / step := Int.ediv_nonneg (by omega) (by omega)
  have hi2 : (i : Int) ≤ (hi - lo) / step := by omega
  have hmul : (i : Int) * step ≤ hi - lo :=
    le_trans (Int.mul_le_mul_of_nonneg_right hi2 (by omega)) (Int.ediv_mul_le _ (by omega))
  have hnn : 0 ≤ (i : Int) * step := Int.mul_nonneg (by omega) (by omega)
  have h53 : (2 : Int) ^ 53 = 9007199254740992 := by norm_num
  have h53n : (2 : Nat) ^ 53 = 9007199254740992 := by norm_num
  rw [h53] at hlo hhi
  refine ⟨_, rfl, ?_, by omega, by omega, ?_⟩
  · rw [parseInt_decimalText, roundToDouble_of_le]
    rw [h53n]
    omega
  · simp

/-- C6. Presentation clamping: every text that the cell size control hands to
its handler makes the handler store an integer in [20,72], and every text that
the gap control hands to its handler makes the handler store an integer in
[0,24]. The integers passed through are exactly those of the control: every
even `n` from 20 to 72 (every `n` from 0 to 24 for the gap) is handed over and
stored as `n`, and the numeral of an integer outside the bounds is never
handed over, the control having moved such a value to a bound. -/
theorem presentation_in_range :
    (∀ value ∈ rangeTexts 20 72 2, ∃ k : Int,
        value = decimalText k ∧ sizeOnChange value = .int k ∧ 20 ≤ k ∧ k ≤ 72) ∧
      (∀ value ∈ rangeTexts 0 24 1, ∃ k : Int,
        value = decimalText k ∧ gapOnChange value = .int k ∧ 0 ≤ k ∧ k ≤ 24) ∧
      (∀ (s : State) (value : String), Event.enabled s (Event.sizeInput value) = true →
        ∃ k : Int, 20 ≤ k ∧ k ≤ 72 ∧
          step s (Event.sizeInput value) = some { s with size := .int k }) ∧
      (∀ (s : State) (value : String), Event.enabled s (Event.gapInput value) = true →
        ∃ k : Int, 0 ≤ k ∧ k ≤ 24 ∧
          step s (Event.gapInput value) = some { s with gap := .int k }) ∧
      (∀ n : Int, decimalText n ∈ rangeTexts 20 72 2 ↔ (20 ≤ n ∧ n ≤ 72 ∧ n % 2 = 0)) ∧
      (∀ n : Int, decimalText n ∈ rangeTexts 0 24 1 ↔ (0 ≤ n ∧ n ≤ 24)) ∧
      (∀ n : Int, 20 ≤ n → n ≤ 72 → n % 2 = 0 → sizeOnChange (decimalText n) = .int n) ∧
      (∀ n : Int, 0 ≤ n → n ≤ 24 → gapOnChange (decimalText n) = .int n) := by
  have hsize := parseInt_rangeTexts 20 72 2 (by norm_num) (by norm_num) (by norm_num)
    (by norm_num)
  have hgap := parseInt_rangeTexts 0 24 1 (by norm_num) (by norm_num) (by norm_num)
    (by norm_num)
  have hsmall : ∀ n : Int, -100 ≤ n → n ≤ 100 → parseInt (decimalText n) = .int n := by
    intro n h1 h2
    rw [parseInt_decimalText, roundToDouble_of_le]
    have h53n : (2 : Nat) ^ 53 = 9007199254740992 := by norm_num
    rw [h53n]
    omega
  have hinj : ∀ n k : Int, -100 ≤ k → k ≤ 100 → decimalText n = decimalText k → n = k := by
    intro n k h1 h2 e
    have e1 := parseInt_decimalText n
    rw [e, hsmall k h1 h2] at e1
    have e2 : k = roundToDouble n := Num.int.inj e1
    by_cases hn : n.natAbs ≤ 2 ^ 53
    · rw [roundToDouble_of_le n hn] at e2
      exact e2.symm
    · obtain ⟨d, hd, e3⟩ := roundToDouble_large n (by omega)
      have h52 : (2 : Nat) ^ 52 = 4503599627370496 := by norm_num
      rw [h52] at hd
      rw [e3] at e2
      rcases Int.lt_trichotomy n 0 with hneg | hz | hpos
      · rw [Int.sign_eq_neg_one_of_neg hneg] at e2; omega
      · rw [hz] at hn; simp at hn
      · rw [Int.sign_eq_one_of_pos hpos] at e2; omega
  refine ⟨?_, ?_, ?_, ?_, ?_, ?_, ?_, ?_⟩
  · intro value hv
    obtain ⟨k, e, hp, h1, h2, _⟩ := hsize value hv
    exact ⟨k, e, hp, h1, h2⟩
  · intro value hv
    obtain ⟨k, e, hp, h1, h2, _⟩ := hgap value hv
    exact ⟨k, e, hp, h1, h2⟩
  · intro s value hen
    simp only [Event.enabled, decide_eq_true_eq] at hen
    obtain ⟨k, _, hp, h1, h2, _⟩ := hsize value hen
    refine ⟨k, h1, h2, ?_⟩
    simp only [step, Event.enabled, hen, decide_True, if_true, sizeOnChange, hp]
  · intro s value hen
    simp only [Event.enabled, decide_eq_true_eq] at hen
    obtain ⟨k, _, hp, h1, h2, _⟩ := hgap value hen
    refine ⟨k, h1, h2, ?_⟩
    simp only [step, Event.enabled, hen, decide_True, if_true, gapOnChange, hp]
  · intro n
    constructor
    · intro hn
      obtain ⟨k, e, _, h1, h2, h3⟩ := hsize _ hn
      have := hinj n k (by omega) (by omega) e
      subst this
      omega
    · rintro ⟨h1, h2, h3⟩
      unfold rangeTexts rangeValues
      simp only [List.mem_map, List.mem_range]
      refine ⟨n, ⟨((n - 20) / 2).toNat, ?_, ?_⟩, rfl⟩
      · have : ((72 : Int) - 20) / 2 = 26 := by norm_num
        rw [this]
        omega
      · omega
  · intro n
    constructor
    · intro hn
      obtain ⟨k, e, _, h1, h2, h3⟩ := hgap _ hn
      have := hinj n k (by omega) (by omega) e
      subst this
      omega
    · rintro ⟨h1, h2⟩
      unfold rangeTexts rangeValues
      simp only [List.mem_map, List.mem_range]
      refine ⟨n, ⟨n.toNat, ?_, ?_⟩, rfl⟩
      · have : ((24 : Int) - 0) / 1 = 24 := by norm_num
        rw [this]
        omega
      · omega
  · intro n h1 h2 _
    exact hsmall n (by omega) (by omega)
  · intro n h1 h2
    exact hsmall n (by omega) (by omega)

/-- C9 fails on the code: only the empty text is replaced by `"0"`. The text
`.5`, which a number input accepts, and any text without leading digits make
`parseInt` return `NaN`, which `clamp` passes on, so `NaN` is stored as the
row count and the resize effect then leaves a grid of no rows. The empty text
does store 1. -/
theorem dimension_input_nan :
    rowsOnChange ".5" = .nan ∧ colsOnChange ".5" = .nan ∧
      rowsOnChange "abc" = .nan ∧ rowsOnChange "" = .int 1 ∧
      (step initialState (Event.rowsInput ".5")).map (fun s => (s.rows, s.grid))
        = some (.nan, []) := by
  refine ⟨by decide, by decide, by decide, by decide, by decide⟩

end ColorGrid
